import Mathlib

/-!
# Verification of the mention-monitor aggregation and persistence pipeline

A shallow embedding of the core logic of `mention_monitor.py`,
`scraper_modules.py` and `llm_analysis.py`:

* `Mention` mirrors the `Mention` dataclass (timestamps are modelled as
  integer hours since an epoch; the ISO round-trip of `to_dict`/load is the
  identity on this model, calendar-day formatting is modelled by flooring to
  whole days).
* Python `dict` objects (used for URL-keyed deduplication, day histograms and
  breakdown counters) are modelled as insertion-ordered association lists with
  in-place update (`dictUpsert`), which reproduces CPython's ordered-dict
  semantics: first-insertion order of keys, latest value wins.
* `MentionStorage.save_mentions` / `load_mentions`, the aggregator
  `MentionMonitorApp.search_mentions`, the analytics
  `MentionAnalytics.calculate_stats`, the scrapers' `_create_mention` helper
  and the keyword fallback branch of `CohereAnalyzer._get_sentiment` are each
  translated definition-for-definition below.
* Fallible effects (a storage write that may fail, a scraper whose `search`
  raises) are made explicit parameters; an exception that the Python code
  catches locally is modelled by the corresponding `match`/`if` branch.

Floats that the program ever compares or stores (`relevance_score`,
confidence values) only take dyadic values such as `0.0`, `0.5`, `1.0`, so
they are modelled exactly as rationals.
-/

namespace MentionMonitor

/-! ## Python dict model: insertion-ordered association lists -/

/-- `d[k] = v` on a CPython dict: replace the value in place if the key is
already present (keeping the key's original position), otherwise append the
new binding at the end. -/
def dictUpsert {κ ν : Type} [BEq κ] : List (κ × ν) → κ → ν → List (κ × ν)
  | [], k, v => [(k, v)]
  | (k', v') :: rest, k, v =>
      if k' == k then (k, v) :: rest else (k', v') :: dictUpsert rest k v

/-- `d.get(k)` / `d[k]` lookup on the association-list dict model. -/
def dictFind {κ ν : Type} [BEq κ] : List (κ × ν) → κ → Option ν
  | [], _ => none
  | (k', v') :: rest, k => if k' == k then some v' else dictFind rest k

/-- `d.get(k, default)` on the association-list dict model. -/
def dictGetD {κ ν : Type} [BEq κ] (d : List (κ × ν)) (k : κ) (v₀ : ν) : ν :=
  (dictFind d k).getD v₀

/-- Python's `str.lower()` (ASCII case folding), modelled character-wise. -/
def strLower (s : String) : String := String.mk (s.data.map Char.toLower)

/-! ## Data model (`Mention` dataclass) -/

/-- The `Mention` dataclass of `mention_monitor.py`.  `date_found` is an
integer number of hours since an epoch; `relevance_score` is an exact
rational.  The dataclass defaults are `relevance_score = 0.0` and
`sentiment = "neutral"`. -/
structure Mention where
  source : String
  title : String
  url : String
  snippet : String
  date_found : Int
  search_term : String
  relevance_score : ℚ := 0
  sentiment : String := "neutral"
  deriving Repr, DecidableEq

/-- The JSON-object image of a `Mention` produced by `Mention.to_dict` and
stored in the persisted collection.  All eight fields are present; the
ISO-8601 round-trip on `date_found` is the identity in this model. -/
structure RecD where
  source : String
  title : String
  url : String
  snippet : String
  date_found : Int
  search_term : String
  relevance_score : ℚ
  sentiment : String
  deriving Repr, DecidableEq

/-- `Mention.to_dict`: serialise a mention to its stored record. -/
def Mention.to_dict (m : Mention) : RecD :=
  { source := m.source, title := m.title, url := m.url, snippet := m.snippet
    date_found := m.date_found, search_term := m.search_term
    relevance_score := m.relevance_score, sentiment := m.sentiment }

@[simp] theorem to_dict_url (m : Mention) : m.to_dict.url = m.url := rfl

@[simp] theorem to_dict_search_term (m : Mention) :
    m.to_dict.search_term = m.search_term := rfl

/-! ## Store (`MentionStorage`) -/

/-- `MentionStorage.save_mentions`, successful-write path: load the existing
collection, drop incoming mentions whose URL is already present, append the
survivors (serialised) and write everything back.  The persisted collection
is the function's result. -/
def save_mentions (store : List RecD) (mentions : List Mention) : List RecD :=
  let existing_urls := store.map RecD.url
  let new_mentions := mentions.filter (fun m => !(existing_urls.contains m.url))
  store ++ new_mentions.map Mention.to_dict

/-- A sequence of `save_mentions` calls starting from a given store. -/
def mergeAll (batches : List (List Mention)) (store : List RecD) : List RecD :=
  batches.foldl save_mentions store

/-- `MentionStorage.get_mentions_for_term`: case-insensitive match on
`search_term`. -/
def get_mentions_for_term (store : List RecD) (term : String) : List RecD :=
  store.filter (fun r => strLower r.search_term == strLower term)

/-- The multiset of URLs in a persisted store. -/
def storeUrls (store : List RecD) : List String := store.map RecD.url

/-! ### Basic lemmas about the merge -/

theorem contains_eq_mem {l : List String} {a : String} :
    l.contains a = true ↔ a ∈ l := by
  simp [List.contains, List.elem_iff]

theorem save_mentions_eq (store : List RecD) (mentions : List Mention) :
    save_mentions store mentions =
      store ++ (mentions.filter
        (fun m => !((store.map RecD.url).contains m.url))).map Mention.to_dict := rfl

theorem mem_storeUrls_save (store : List RecD) (B : List Mention) (m : Mention)
    (hm : m ∈ B) : m.url ∈ storeUrls (save_mentions store B) := by
  have hsplit : storeUrls (save_mentions store B) =
      store.map RecD.url ++
        ((B.filter (fun m => !((store.map RecD.url).contains m.url))).map
          Mention.to_dict).map RecD.url := by
    simp [storeUrls, save_mentions_eq]
  rw [hsplit]
  by_cases h : (store.map RecD.url).contains m.url = true
  · exact List.mem_append.mpr (Or.inl (contains_eq_mem.mp h))
  · have hc : (store.map RecD.url).contains m.url = false :=
      Bool.eq_false_iff.mpr h
    have hf : m ∈ B.filter (fun m => !((store.map RecD.url).contains m.url)) := by
      refine List.mem_filter.mpr ⟨hm, ?_⟩
      rw [hc]
      rfl
    refine List.mem_append.mpr (Or.inr ?_)
    have := List.mem_map_of_mem Mention.to_dict hf
    simpa using List.mem_map_of_mem RecD.url this

theorem save_mentions_second_filter_nil (store : List RecD) (B : List Mention) :
    B.filter (fun m => !((storeUrls (save_mentions store B)).contains m.url)) = [] := by
  apply List.filter_eq_nil_iff.mpr
  intro m hm
  have hmem := mem_storeUrls_save store B m hm
  simpa using hmem

/-- C1: merging the same batch twice is idempotent — after `save_mentions store B`,
every URL of `B` is present in the store, so a second `save_mentions` with the
same batch `B` retains nothing and writes back the unchanged collection. -/
theorem save_mentions_idempotent (store : List RecD) (B : List Mention) :
    save_mentions (save_mentions store B) B = save_mentions store B := by
  have h := save_mentions_second_filter_nil store B
  calc save_mentions (save_mentions store B) B
      = save_mentions store B ++
          (B.filter (fun m =>
            !((storeUrls (save_mentions store B)).contains m.url))).map Mention.to_dict := rfl
    _ = save_mentions store B ++ ([] : List Mention).map Mention.to_dict := by rw [h]
    _ = save_mentions store B := by simp

/-- C10: the merge is append-only — `save_mentions` leaves every
already-persisted record unchanged in its original position (the first
`store.length` entries of the result are exactly `store`), and everything
after them is the retained new mentions, serialised, in batch order. -/
theorem save_mentions_append_only (store : List RecD) (B : List Mention) :
    (save_mentions store B).take store.length = store ∧
    (save_mentions store B).drop store.length =
      (B.filter (fun m => !((store.map RecD.url).contains m.url))).map Mention.to_dict := by
  constructor
  · rw [save_mentions_eq]
    exact List.take_left _ _
  · rw [save_mentions_eq]
    exact List.drop_left _ _

theorem storeUrls_save (store : List RecD) (B : List Mention) :
    storeUrls (save_mentions store B) =
      storeUrls store ++
        (B.filter (fun m => !((storeUrls store).contains m.url))).map Mention.url := by
  simp [storeUrls, save_mentions_eq, List.map_map, Function.comp_def]

theorem save_mentions_urls_nodup (store : List RecD) (B : List Mention)
    (hst : (storeUrls store).Nodup) (hB : (B.map Mention.url).Nodup) :
    (storeUrls (save_mentions store B)).Nodup := by
  rw [storeUrls_save]
  refine List.Nodup.append hst ?_ ?_
  · exact List.Nodup.sublist (List.Sublist.map Mention.url (List.filter_sublist B)) hB
  · intro u hu1 hu2
    rcases List.mem_map.mp hu2 with ⟨m, hmf, hmu⟩
    rcases List.mem_filter.mp hmf with ⟨-, hpred⟩
    have hnm : m.url ∉ storeUrls store := by
      intro hmem
      rw [contains_eq_mem.mpr hmem] at hpred
      exact absurd hpred (by decide)
    exact hnm (hmu ▸ hu1)

theorem mergeAll_urls_nodup (batches : List (List Mention)) (store : List RecD)
    (hst : (storeUrls store).Nodup) (hb : ∀ b ∈ batches, (b.map Mention.url).Nodup) :
    (storeUrls (mergeAll batches store)).Nodup := by
  induction batches generalizing store with
  | nil => exact hst
  | cons b rest ih =>
      exact ih (save_mentions store b)
        (save_mentions_urls_nodup store b hst (hb b (by simp)))
        (fun b' hb' => hb b' (by simp [hb']))

theorem partition_urls_sublist (store : List RecD) (term : String) :
    ((get_mentions_for_term store term).map RecD.url).Sublist (storeUrls store) :=
  List.Sublist.map RecD.url (List.filter_sublist store)

/-- Two distinct mentions sharing URL `"u"` and search term `"t"`: a single
batch the aggregator never produces, but a legal direct argument to the
store's merge. -/
def c2m1 : Mention :=
  { source := "DuckDuckGo", title := "a", url := "u", snippet := "",
    date_found := 0, search_term := "t" }

def c2m2 : Mention :=
  { source := "Bing", title := "b", url := "u", snippet := "",
    date_found := 0, search_term := "t" }

/-- C2 counterexample: one merge of a batch that itself repeats URL `"u"`
(two mentions with search term `"t"`) leaves two records with the same URL in
the `"t"` partition — `save_mentions` only filters against *already persisted*
URLs, never within the incoming batch, so the claimed invariant fails. -/
theorem dedup_invariant_cex :
    ¬ ((get_mentions_for_term (mergeAll [[c2m1, c2m2]] []) "t").map RecD.url).Nodup := by
  decide

/-- C2 amended: after any sequence of merges starting from the empty store of
batches that each contain pairwise-distinct URLs (as batches produced by the
aggregator's URL-keyed dedup always do), no two records in any search-term
partition share a URL. -/
theorem dedup_invariant_of_nodup_batches (batches : List (List Mention)) (term : String)
    (hb : ∀ b ∈ batches, (b.map Mention.url).Nodup) :
    ((get_mentions_for_term (mergeAll batches []) term).map RecD.url).Nodup :=
  List.Nodup.sublist (partition_urls_sublist (mergeAll batches []) term)
    (mergeAll_urls_nodup batches [] (by simp [storeUrls]) hb)

/-- Witness for the amended C2 theorem at a concrete two-batch input. -/
theorem dedup_invariant_witness :
    (∀ b ∈ [[c2m1], [c2m2]], (b.map Mention.url).Nodup) ∧
    ((get_mentions_for_term (mergeAll [[c2m1], [c2m2]] []) "t").map RecD.url).Nodup :=
  ⟨by decide, dedup_invariant_of_nodup_batches [[c2m1], [c2m2]] "t" (by decide)⟩

/-! ## Aggregator (`MentionMonitorApp.search_mentions`) -/

/-- The outcome of awaiting one scraper's `search(term)`: either a list of
mentions, or a raised exception (which the aggregator's per-scraper
`try/except` catches, logs and skips with `continue`). -/
inductive FetchOutcome where
  | ok : List Mention → FetchOutcome
  | raised : FetchOutcome
  deriving Repr, DecidableEq

/-- The aggregator's per-scraper loop: successful results are concatenated in
scraper registration order; a scraper that raises contributes nothing. -/
def collectResults (results : List FetchOutcome) : List Mention :=
  results.foldl (fun acc r =>
    match r with
    | FetchOutcome.ok ms => acc ++ ms
    | FetchOutcome.raised => acc) []

/-- The URL-keyed dict built by `unique_mentions[mention.url] = mention`:
keys are the raw, unnormalised `url` strings. -/
def dedupAssoc (ms : List Mention) : List (String × Mention) :=
  ms.foldl (fun acc m => dictUpsert acc m.url m) []

/-- `final_mentions = list(unique_mentions.values())`. -/
def dedupByUrl (ms : List Mention) : List Mention :=
  (dedupAssoc ms).map Prod.snd

/-- The persisted storage file as it evolves across writes.
`save_mentions` opens the file with `open(self.storage_path, 'w', ...)`,
which TRUNCATES it before `json.dump` streams the new collection, so a write
that fails mid-dump leaves a truncated, unparseable file: the previous
collection is destroyed, and the next `load_mentions` turns the parse
failure into zero records. -/
inductive StoreFile where
  | good : List RecD → StoreFile
  | corrupt : StoreFile
  deriving Repr, DecidableEq

/-- What a subsequent load reads back from the storage file: the collection
if it is well-formed, zero records from a corrupted/truncated file. -/
def StoreFile.contents : StoreFile → List RecD
  | StoreFile.good recs => recs
  | StoreFile.corrupt => []

/-- A storage write that may fail: on success the merged collection replaces
the persisted one; on failure the file — already truncated by `open('w')` —
is left corrupted and an exception is raised to the writer. -/
def writeStore (ok : Bool) (new : List RecD) : StoreFile × Except String Unit :=
  if ok then (StoreFile.good new, Except.ok ())
  else (StoreFile.corrupt, Except.error "StorageIOError")

/-- `MentionStorage.save_mentions` with its surrounding `try/except`: load
the current contents, compute the merge, attempt the write; ANY exception is
caught and only logged (`except Exception as e: logger.error(...)`), so the
method always returns normally to its caller — even when the failed write
has just corrupted the file. -/
def save_mentions_run (file : StoreFile) (mentions : List Mention) (writeOk : Bool) :
    StoreFile × Except String Unit :=
  match writeStore writeOk (save_mentions file.contents mentions) with
  | (f, Except.ok _) => (f, Except.ok ())
  | (f, Except.error _) => (f, Except.ok ())

/-- `MentionMonitorApp.search_mentions`: collect per-scraper results
(failures isolated), deduplicate through the URL-keyed dict, persist when
non-empty, and return the deduplicated list.  The first component is the
storage file after the call; the second is the call's outcome as its caller
sees it — an `Except.error` would model an exception escaping
`search_mentions`. -/
def search_mentions (file : StoreFile) (results : List FetchOutcome) (writeOk : Bool) :
    StoreFile × Except String (List Mention) :=
  let final_mentions := dedupByUrl (collectResults results)
  if final_mentions.isEmpty then (file, Except.ok final_mentions)
  else
    match save_mentions_run file final_mentions writeOk with
    | (f, Except.ok _) => (f, Except.ok final_mentions)
    | (f, Except.error e) => (f, Except.error e)

/-- A well-formed mention fetched by one scraper, used to exercise the
write-failure path. -/
def c3m : Mention :=
  { source := "DuckDuckGo", title := "a", url := "https://x/1", snippet := "s",
    date_found := 0, search_term := "t" }

/-- C3 counterexample: with one fetched mention and a failing storage write,
`search_mentions` returns normally with its in-memory result instead of
raising — `save_mentions` swallows the write error (leaving only the
corrupted, truncated file behind), so a failed persist never surfaces to the
aggregator's caller. -/
theorem storage_error_not_raised_cex :
    search_mentions (StoreFile.good []) [FetchOutcome.ok [c3m]] false =
      (StoreFile.corrupt, Except.ok [c3m]) := by
  rfl

/-- C3 amended: storage write failures are caught and logged inside
`save_mentions`, so `search_mentions` returns its deduplicated in-memory
result normally for every write outcome — the call never fails; a
non-empty-batch write failure leaves the storage file corrupted (truncated
by `open('w')` before the dump died), not rolled back. -/
theorem search_mentions_swallows_storage_errors (file : StoreFile)
    (results : List FetchOutcome) :
    (∀ writeOk : Bool, (search_mentions file results writeOk).2 =
      Except.ok (dedupByUrl (collectResults results))) ∧
    (search_mentions file results false).1 =
      (if (dedupByUrl (collectResults results)).isEmpty then file
       else StoreFile.corrupt) := by
  constructor
  · intro writeOk
    cases writeOk <;>
      by_cases h : (dedupByUrl (collectResults results)).isEmpty <;>
        simp [search_mentions, h, save_mentions_run, writeStore]
  · by_cases h : (dedupByUrl (collectResults results)).isEmpty <;>
      simp [search_mentions, h, save_mentions_run, writeStore]

/-! ### Deduplication lemmas (URL-keyed dict) -/

theorem dictFind_upsert {κ ν : Type} [BEq κ] [LawfulBEq κ]
    (l : List (κ × ν)) (k k' : κ) (v : ν) :
    dictFind (dictUpsert l k v) k' =
      if k' == k then some v else dictFind l k' := by
  induction l with
  | nil =>
      by_cases h : k' = k
      · subst h
        simp [dictUpsert, dictFind]
      · have h' : (k == k') = false := beq_eq_false_iff_ne.mpr (fun hh => h hh.symm)
        have h'' : (k' == k) = false := beq_eq_false_iff_ne.mpr h
        simp [dictUpsert, dictFind, h', h'']
  | cons p rest ih =>
      obtain ⟨k₀, v₀⟩ := p
      by_cases h0 : k₀ = k
      · subst h0
        by_cases h1 : k₀ = k'
        · subst h1
          simp [dictUpsert, dictFind]
        · have ha : (k₀ == k') = false := beq_eq_false_iff_ne.mpr h1
          have hb : (k' == k₀) = false := beq_eq_false_iff_ne.mpr (fun hh => h1 hh.symm)
          simp [dictUpsert, dictFind, ha, hb]
      · have ha : (k₀ == k) = false := beq_eq_false_iff_ne.mpr h0
        by_cases h1 : k₀ = k'
        · subst h1
          have hb : (k₀ == k) = false := beq_eq_false_iff_ne.mpr h0
          simp [dictUpsert, dictFind, hb]
        · have hb : (k₀ == k') = false := beq_eq_false_iff_ne.mpr h1
          simp [dictUpsert, dictFind, ha, hb, ih]

theorem keys_dictUpsert_of_mem {κ ν : Type} [BEq κ] [LawfulBEq κ]
    (l : List (κ × ν)) (k : κ) (v : ν) (h : k ∈ l.map Prod.fst) :
    (dictUpsert l k v).map Prod.fst = l.map Prod.fst := by
  induction l with
  | nil => simp at h
  | cons p rest ih =>
      obtain ⟨k₀, v₀⟩ := p
      by_cases h0 : k₀ = k
      · subst h0
        simp [dictUpsert]
      · have ha : (k₀ == k) = false := beq_eq_false_iff_ne.mpr h0
        have hk : k ∈ rest.map Prod.fst := by
          rw [List.map_cons] at h
          rcases List.mem_cons.mp h with h' | h'
          · exact absurd h'.symm h0
          · exact h'
        simp [dictUpsert, ha, ih hk]

theorem keys_dictUpsert_of_not_mem {κ ν : Type} [BEq κ] [LawfulBEq κ]
    (l : List (κ × ν)) (k : κ) (v : ν) (h : k ∉ l.map Prod.fst) :
    (dictUpsert l k v).map Prod.fst = l.map Prod.fst ++ [k] := by
  induction l with
  | nil => simp [dictUpsert]
  | cons p rest ih =>
      obtain ⟨k₀, v₀⟩ := p
      have h0 : k₀ ≠ k := by
        intro hh
        exact h (by simp [hh])
      have ha : (k₀ == k) = false := beq_eq_false_iff_ne.mpr h0
      have hk : k ∉ rest.map Prod.fst := by
        intro hh
        exact h (by simp [hh])
      simp [dictUpsert, ha, ih hk]

theorem dictUpsert_keys_nodup {κ ν : Type} [BEq κ] [LawfulBEq κ]
    (l : List (κ × ν)) (k : κ) (v : ν)
    (h : (l.map Prod.fst).Nodup) : ((dictUpsert l k v).map Prod.fst).Nodup := by
  by_cases hk : k ∈ l.map Prod.fst
  · rw [keys_dictUpsert_of_mem l k v hk]
    exact h
  · rw [keys_dictUpsert_of_not_mem l k v hk]
    refine List.Nodup.append h (List.nodup_singleton k) ?_
    intro a ha hb
    rcases List.mem_singleton.mp hb with rfl
    exact hk ha

theorem dedupAssoc_concat (ms : List Mention) (m : Mention) :
    dedupAssoc (ms ++ [m]) = dictUpsert (dedupAssoc ms) m.url m := by
  simp [dedupAssoc, List.foldl_append]

theorem dedupAssoc_keys_nodup (ms : List Mention) :
    ((dedupAssoc ms).map Prod.fst).Nodup := by
  induction ms using List.reverseRecOn with
  | nil => simp [dedupAssoc]
  | append_singleton ms m ih =>
      rw [dedupAssoc_concat]
      exact dictUpsert_keys_nodup _ _ _ ih

theorem dictFind_dedupAssoc (ms : List Mention) (u : String) :
    dictFind (dedupAssoc ms) u = (ms.filter (fun m => m.url == u)).getLast? := by
  induction ms using List.reverseRecOn with
  | nil => simp [dedupAssoc, dictFind]
  | append_singleton ms m ih =>
      rw [dedupAssoc_concat, dictFind_upsert]
      by_cases h : u = m.url
      · subst h
        simp [List.filter_append, List.getLast?_concat]
      · have ha : (u == m.url) = false := beq_eq_false_iff_ne.mpr h
        have hb : (m.url == u) = false := beq_eq_false_iff_ne.mpr (fun hh => h hh.symm)
        simp [List.filter_append, ha, hb, ih]

/-- Two mentions whose URLs differ only in a trailing space. -/
def c5m1 : Mention :=
  { source := "DuckDuckGo", title := "a", url := "u", snippet := "",
    date_found := 0, search_term := "t" }

def c5m2 : Mention :=
  { source := "Bing", title := "b", url := "u ", snippet := "",
    date_found := 0, search_term := "t" }

/-- C5 counterexample: the aggregator's dedup keys on the raw `mention.url`
string with no trimming — two fetched mentions whose URLs differ only in a
trailing space stay two separate entries instead of collapsing to one. -/
theorem dedup_no_trim_cex :
    c5m2.url = c5m1.url ++ " " ∧ dedupByUrl [c5m1, c5m2] = [c5m1, c5m2] := by
  constructor
  · rfl
  · decide

/-- C5 amended: `search_mentions` deduplicates by the exact, unnormalised URL
string (no whitespace trimming): the URL keys of the in-memory dict are
pairwise distinct, and the entry stored under any URL `u` is the last fetched
mention (in adapter processing order) whose `url` equals `u` exactly. -/
theorem dedup_last_wins_exact_url (ms : List Mention) :
    ((dedupAssoc ms).map Prod.fst).Nodup ∧
    ∀ u : String, dictFind (dedupAssoc ms) u =
      (ms.filter (fun m => m.url == u)).getLast? :=
  ⟨dedupAssoc_keys_nodup ms, fun u => dictFind_dedupAssoc ms u⟩

/-! ## Analytics (`MentionAnalytics.calculate_stats`) -/

/-- The calendar day of a timestamp: `datetime.strftime('%Y-%m-%d')` is a
flooring map from timestamps (hours) to calendar days, modelled as floor
division by 24 (`Int` division floors for the positive divisor 24). -/
def dayOf (t : Int) : Int := t / 24

/-- The `MentionStats` dataclass.  The day histogram and the two breakdowns
are insertion-ordered dicts. -/
structure MentionStats where
  total_mentions : Nat
  mentions_last_7_days : Nat
  mentions_by_day : List (Int × Nat)
  sources_breakdown : List (String × Nat)
  sentiment_breakdown : List (String × Nat)
  avg_relevance_score : ℚ
  deriving Repr, DecidableEq

/-- `MentionAnalytics.calculate_stats`, with the call-time clock `now` an
explicit parameter: early-return of all-zero stats (with an EMPTY day
histogram) when the term's partition is empty; otherwise a rolling 7×24h
window for `mentions_last_7_days`, a 7-iteration calendar-day histogram over
the recent mentions, frequency breakdowns by source and sentiment over the
whole partition, and the mean relevance score. -/
def calculate_stats (store : List RecD) (term : String) (now : Int) : MentionStats :=
  let mentions := get_mentions_for_term store term
  if mentions.isEmpty then
    { total_mentions := 0, mentions_last_7_days := 0, mentions_by_day := []
      sources_breakdown := [], sentiment_breakdown := [], avg_relevance_score := 0 }
  else
    let seven_days_ago := now - 7 * 24
    let recent_mentions := mentions.filter (fun m => seven_days_ago ≤ m.date_found)
    let mentions_by_day := (List.range 7).foldl (fun acc i =>
      let day_str := dayOf (now - 24 * (i : Int))
      let day_mentions := recent_mentions.filter (fun m => dayOf m.date_found == day_str)
      dictUpsert acc day_str day_mentions.length) []
    let sources_breakdown := mentions.foldl (fun acc m =>
      dictUpsert acc m.source (dictGetD acc m.source 0 + 1)) []
    let sentiment_breakdown := mentions.foldl (fun acc m =>
      dictUpsert acc m.sentiment (dictGetD acc m.sentiment 0 + 1)) []
    let relevance_scores := mentions.map RecD.relevance_score
    { total_mentions := mentions.length
      mentions_last_7_days := recent_mentions.length
      mentions_by_day := mentions_by_day
      sources_breakdown := sources_breakdown
      sentiment_breakdown := sentiment_breakdown
      avg_relevance_score :=
        if relevance_scores.isEmpty then 0
        else relevance_scores.sum / (relevance_scores.length : ℚ) }

theorem dictUpsert_of_fresh {κ ν : Type} [BEq κ] [LawfulBEq κ]
    (l : List (κ × ν)) (k : κ) (v : ν)
    (h : k ∉ l.map Prod.fst) : dictUpsert l k v = l ++ [(k, v)] := by
  induction l with
  | nil => simp [dictUpsert]
  | cons p rest ih =>
      obtain ⟨k₀, v₀⟩ := p
      have h0 : k₀ ≠ k := fun hh => h (by simp [hh])
      have ha : (k₀ == k) = false := beq_eq_false_iff_ne.mpr h0
      have hk : k ∉ rest.map Prod.fst := fun hh => h (by simp [hh])
      simp [dictUpsert, ha, ih hk]

theorem foldl_dictUpsert_fresh {ν : Type} (f : Nat → Int) (g : Nat → ν) :
    ∀ (idxs : List Nat) (acc : List (Int × ν)),
      (∀ i ∈ idxs, f i ∉ acc.map Prod.fst) → (idxs.map f).Nodup →
      idxs.foldl (fun a i => dictUpsert a (f i) (g i)) acc =
        acc ++ idxs.map (fun i => (f i, g i)) := by
  intro idxs
  induction idxs with
  | nil =>
      intro acc _ _
      simp
  | cons i rest ih =>
      intro acc hfresh hnd
      have h1 : f i ∉ acc.map Prod.fst := hfresh i (by simp)
      have hnd' : (rest.map f).Nodup := (List.nodup_cons.mp (by simpa using hnd)).2
      have hni : f i ∉ rest.map f := (List.nodup_cons.mp (by simpa using hnd)).1
      have hstep : dictUpsert acc (f i) (g i) = acc ++ [(f i, g i)] :=
        dictUpsert_of_fresh acc (f i) (g i) h1
      have hfresh' : ∀ j ∈ rest, f j ∉ (acc ++ [(f i, g i)]).map Prod.fst := by
        intro j hj hmem
        rw [List.map_append] at hmem
        rcases List.mem_append.mp hmem with h' | h'
        · exact hfresh j (by simp [hj]) h'
        · have : f j = f i := by simpa using h'
          exact hni (this ▸ List.mem_map_of_mem f hj)
      calc (i :: rest).foldl (fun a i => dictUpsert a (f i) (g i)) acc
          = rest.foldl (fun a i => dictUpsert a (f i) (g i)) (acc ++ [(f i, g i)]) := by
            simp [hstep]
        _ = (acc ++ [(f i, g i)]) ++ rest.map (fun i => (f i, g i)) := ih _ hfresh' hnd'
        _ = acc ++ (i :: rest).map (fun i => (f i, g i)) := by simp

theorem dayOf_shift (now : Int) (i : Nat) :
    dayOf (now - 24 * (i : Int)) = dayOf now - i := by
  have h : now - 24 * (i : Int) = now + (-(i : Int)) * 24 := by ring
  rw [dayOf, dayOf, h, Int.add_mul_ediv_right now (-(i : Int)) (by norm_num)]
  ring

theorem dayKeys_nodup (now : Int) :
    ((List.range 7).map (fun (i : Nat) => dayOf (now - 24 * (i : Int)))).Nodup := by
  have heq : (List.range 7).map (fun (i : Nat) => dayOf (now - 24 * (i : Int))) =
      (List.range 7).map (fun (i : Nat) => dayOf now - (i : Int)) :=
    List.map_congr_left (fun i _ => dayOf_shift now i)
  rw [heq]
  refine List.Nodup.map ?_ (List.nodup_range 7)
  intro i j hij
  have h2 : (i : Int) = (j : Int) := sub_right_inj.mp hij
  exact_mod_cast h2

theorem calculate_stats_hist_eq (store : List RecD) (term : String) (now : Int)
    (h : get_mentions_for_term store term ≠ []) :
    (calculate_stats store term now).mentions_by_day =
      (List.range 7).map (fun (i : Nat) =>
        (dayOf (now - 24 * (i : Int)),
         (((get_mentions_for_term store term).filter
             (fun m => now - 7 * 24 ≤ m.date_found)).filter
           (fun m => dayOf m.date_found == dayOf (now - 24 * (i : Int)))).length)) := by
  have hne : (get_mentions_for_term store term).isEmpty = false := by
    cases hh : get_mentions_for_term store term with
    | nil => exact absurd hh h
    | cons a l => simp [List.isEmpty]
  have key := foldl_dictUpsert_fresh
    (fun (i : Nat) => dayOf (now - 24 * (i : Int)))
    (fun i => (((get_mentions_for_term store term).filter
        (fun m => now - 7 * 24 ≤ m.date_found)).filter
      (fun m => dayOf m.date_found == dayOf (now - 24 * (i : Int)))).length)
    (List.range 7) [] (by simp) (dayKeys_nodup now)
  simpa [calculate_stats, hne] using key

/-- C4 counterexample: on an empty partition (here the empty store),
`calculate_stats` takes the early all-zero return whose `mentions_by_day`
dict is EMPTY — zero entries, not the claimed seven. -/
theorem histogram_empty_partition_cex :
    (calculate_stats [] "t" 0).mentions_by_day = [] ∧
    (calculate_stats [] "t" 0).mentions_by_day.length ≠ 7 := by
  decide

/-- C4 amended: whenever the search term's partition is non-empty,
`calculate_stats` returns a day histogram with exactly 7 entries, one per
trailing calendar day `now - i` days (i = 0..6), each entry carrying the
count of recent mentions on that day (0 for days with no mentions); on an
empty partition the histogram is the empty dict. -/
theorem histogram_seven_entries_of_nonempty (store : List RecD) (term : String)
    (now : Int) (h : get_mentions_for_term store term ≠ []) :
    (calculate_stats store term now).mentions_by_day.length = 7 ∧
    ∀ i ∈ List.range 7,
      (dayOf (now - 24 * (i : Int)),
        (((get_mentions_for_term store term).filter
            (fun m => now - 7 * 24 ≤ m.date_found)).filter
          (fun m => dayOf m.date_found == dayOf (now - 24 * (i : Int)))).length) ∈
        (calculate_stats store term now).mentions_by_day := by
  rw [calculate_stats_hist_eq store term now h]
  constructor
  · simp
  · intro i hi
    exact List.mem_map_of_mem _ hi

/-- One persisted record with search term `"t"`, observed at hour 0. -/
def c4rec : RecD :=
  { source := "DuckDuckGo", title := "a", url := "https://x/1", snippet := "s",
    date_found := 0, search_term := "t", relevance_score := 1/2,
    sentiment := "neutral" }

/-- Witness for the amended C4 theorem at a concrete one-record store. -/
theorem histogram_seven_entries_witness :
    get_mentions_for_term [c4rec] "t" ≠ [] ∧
    (calculate_stats [c4rec] "t" 0).mentions_by_day.length = 7 :=
  ⟨by decide, (histogram_seven_entries_of_nonempty [c4rec] "t" 0 (by decide)).1⟩

/-! ## Store load (`MentionStorage.load_mentions`) -/

/-- A raw decoded record from the persisted JSON: a JSON object whose fields
may be absent or ill-typed.  A field that is present and well-typed is
`some`. -/
structure RawRec where
  source : Option String
  title : Option String
  url : Option String
  snippet : Option String
  date_found : Option Int
  search_term : Option String
  relevance_score : Option ℚ
  sentiment : Option String
  deriving Repr, DecidableEq

/-- A raw record is well-formed when every field of the persisted layout is
present. -/
def RawRec.wellFormed (r : RawRec) : Bool :=
  r.source.isSome && r.title.isSome && r.url.isSome && r.snippet.isSome &&
    r.date_found.isSome && r.search_term.isSome && r.relevance_score.isSome &&
    r.sentiment.isSome

/-- The state of the persisted file as `load_mentions` finds it: absent
(`not self.storage_path.exists()`), unreadable/unparseable (opening or
`json.load` raises, caught by the method's `except`), or a successfully
parsed list of raw records. -/
inductive FileState where
  | absent : FileState
  | unreadable : FileState
  | parsed : List RawRec → FileState
  deriving Repr, DecidableEq

/-- `MentionStorage.load_mentions`: `[]` when the file does not exist; any
exception while opening or parsing is caught, logged and turned into `[]`;
a successful parse is returned as-is, with NO per-record validation. -/
def load_mentions : FileState → List RawRec
  | FileState.absent => []
  | FileState.unreadable => []
  | FileState.parsed recs => recs

/-- A fully well-formed persisted record. -/
def goodRec : RawRec :=
  { source := some "DuckDuckGo", title := some "a", url := some "u",
    snippet := some "", date_found := some 0, search_term := some "t",
    relevance_score := some (1/2), sentiment := some "neutral" }

/-- A malformed persisted record (missing `url` and most other fields). -/
def badRec : RawRec :=
  { source := none, title := some "b", url := none, snippet := none,
    date_found := none, search_term := none, relevance_score := none,
    sentiment := none }

/-- C6 counterexample: a parseable store holding one well-formed and one
malformed record — `load_mentions` returns BOTH records untouched instead of
skipping the malformed one and returning only the well-formed remainder. -/
theorem load_keeps_malformed_cex :
    load_mentions (FileState.parsed [goodRec, badRec]) = [goodRec, badRec] ∧
    badRec.wellFormed = false ∧
    load_mentions (FileState.parsed [goodRec, badRec]) ≠
      (load_mentions (FileState.parsed [goodRec, badRec])).filter RawRec.wellFormed := by
  refine ⟨rfl, rfl, ?_⟩
  intro h
  have hlen : (load_mentions (FileState.parsed [goodRec, badRec])).length = 2 := rfl
  have hflen : ((load_mentions (FileState.parsed [goodRec, badRec])).filter
      RawRec.wellFormed).length = 1 := rfl
  rw [h, hflen] at hlen
  exact absurd hlen (by decide)

/-- C6 amended: the load tolerates an absent store and an unreadable or
unparseable one (both yield zero records), and otherwise returns every
decoded record as-is — it performs no per-record validation, so malformed
individual records are returned rather than skipped, and an unparseable file
loses the whole collection rather than its bad records only. -/
theorem load_resilience_no_validation :
    load_mentions FileState.absent = [] ∧
    load_mentions FileState.unreadable = [] ∧
    ∀ recs : List RawRec, load_mentions (FileState.parsed recs) = recs :=
  ⟨rfl, rfl, fun _ => rfl⟩

/-! ## Sentiment fallback (`CohereAnalyzer._get_sentiment`) -/

/-- `needle` occurs at the head of `hay`. -/
def headMatches : List Char → List Char → Bool
  | [], _ => true
  | _ :: _, [] => false
  | a :: as, b :: bs => a == b && headMatches as bs

/-- Python's `needle in hay` substring containment test. -/
def hasSub (needle : List Char) : List Char → Bool
  | [] => headMatches needle []
  | c :: cs => headMatches needle (c :: cs) || hasSub needle cs

/-- The JSON-parse-failure fallback branch of `CohereAnalyzer._get_sentiment`
(lines 133–143 of `llm_analysis.py`): lowercase the raw generation text, then
scan for `"positive"` FIRST, then `"negative"`, else `"neutral"`; confidence
is 0.5 on every fallback path. -/
def get_sentiment_fallback (raw : String) : String × ℚ :=
  let text_response := raw.data.map Char.toLower
  if hasSub "positive".data text_response then ("positive", 1/2)
  else if hasSub "negative".data text_response then ("negative", 1/2)
  else ("neutral", 1/2)

/-- C7 counterexample: an unparseable response containing the substring
`"negative"` — but also `"positive"`, which the code checks first — resolves
to `"positive"`, not the claimed `"negative"`. -/
theorem sentiment_fallback_cex :
    hasSub "negative".data ("it is positive, not negative".data.map Char.toLower) = true ∧
    get_sentiment_fallback "it is positive, not negative" = ("positive", 1/2) ∧
    get_sentiment_fallback "it is positive, not negative" ≠ ("negative", 1/2) := by
  refine ⟨by decide, rfl, ?_⟩
  intro h
  have hfst : "positive" = "negative" := by
    have h2 : get_sentiment_fallback "it is positive, not negative" =
        ("positive", (1 : ℚ)/2) := rfl
    exact congrArg Prod.fst (h2.symm.trans h)
  exact absurd hfst (by decide)

/-- C7 amended: on the fallback path, a response whose lowercased text does
NOT contain `"positive"` but does contain `"negative"` resolves to
`("negative", 0.5)`; one containing neither polarity keyword resolves to
`("neutral", 0.5)`. -/
theorem sentiment_fallback_amended (raw : String) :
    (hasSub "positive".data (raw.data.map Char.toLower) = false →
      hasSub "negative".data (raw.data.map Char.toLower) = true →
      get_sentiment_fallback raw = ("negative", 1/2)) ∧
    (hasSub "positive".data (raw.data.map Char.toLower) = false →
      hasSub "negative".data (raw.data.map Char.toLower) = false →
      get_sentiment_fallback raw = ("neutral", 1/2)) := by
  constructor <;> intro h1 h2 <;> simp [get_sentiment_fallback, h1, h2]

/-- Witness for the amended C7 theorem on two concrete responses. -/
theorem sentiment_fallback_witness :
    (hasSub "positive".data ("a Negative review".data.map Char.toLower) = false ∧
     hasSub "negative".data ("a Negative review".data.map Char.toLower) = true ∧
     get_sentiment_fallback "a Negative review" = ("negative", 1/2)) ∧
    (hasSub "positive".data ("nothing here".data.map Char.toLower) = false ∧
     hasSub "negative".data ("nothing here".data.map Char.toLower) = false ∧
     get_sentiment_fallback "nothing here" = ("neutral", 1/2)) :=
  ⟨⟨by decide, by decide,
      (sentiment_fallback_amended "a Negative review").1 (by decide) (by decide)⟩,
   ⟨by decide, by decide,
      (sentiment_fallback_amended "nothing here").2 (by decide) (by decide)⟩⟩

/-! ## Mention construction defaults (C8) -/

/-- A `Mention` built with only the six required constructor arguments,
taking the dataclass defaults for `relevance_score` (0.0) and `sentiment`
(`"neutral"`). -/
def mention_with_defaults (source title url snippet : String)
    (date_found : Int) (search_term : String) : Mention :=
  { source := source, title := title, url := url, snippet := snippet,
    date_found := date_found, search_term := search_term }

/-- `BaseScraper._create_mention` of `scraper_modules.py`: builds a `Mention`
with `date_found = datetime.now()` and an explicit `relevance_score = 0.5`,
leaving `sentiment` at its dataclass default. -/
def create_mention (source title url snippet : String) (now : Int)
    (search_term : String) : Mention :=
  { source := source, title := title, url := url, snippet := snippet,
    date_found := now, search_term := search_term, relevance_score := 1/2 }

/-- C8 counterexample: a `Mention` built via the dataclass defaults (no
enrichment, no `_create_mention`) has `relevance_score = 0.0`, not the
claimed `0.5`. -/
theorem default_relevance_cex :
    (mention_with_defaults "s" "t" "u" "" 0 "q").relevance_score = 0 ∧
    (0 : ℚ) ≠ 1/2 := by
  refine ⟨rfl, ?_⟩
  norm_num

/-- C8 amended: before any enrichment, a `Mention` built by the adapters'
`_create_mention` helper has `relevance_score = 0.5`, while one built via the
dataclass defaults has `relevance_score = 0.0`; both values lie in
[0.0, 1.0]. -/
theorem relevance_defaults_amended (source title url snippet : String)
    (now date_found : Int) (search_term : String) :
    (create_mention source title url snippet now search_term).relevance_score = 1/2 ∧
    (mention_with_defaults source title url snippet date_found
        search_term).relevance_score = 0 ∧
    (0 : ℚ) ≤ (create_mention source title url snippet now search_term).relevance_score ∧
    (create_mention source title url snippet now search_term).relevance_score ≤ 1 ∧
    (0 : ℚ) ≤ (mention_with_defaults source title url snippet date_found
        search_term).relevance_score ∧
    (mention_with_defaults source title url snippet date_found
        search_term).relevance_score ≤ 1 := by
  refine ⟨rfl, rfl, ?_, ?_, ?_, ?_⟩ <;>
    norm_num [create_mention, mention_with_defaults]
